import Mathlib

/-!
Verification of the chunk-identity and incremental-synchronization pipeline
of `populate_database.py`.

The embedding models, faithfully to the Python source:
  * the decimal rendering of integers used by Python f-strings,
  * the `Chunk` record (a langchain `Document` restricted to the metadata
    this program reads and writes: `source`, `page`, `row`, `id`),
  * `calculate_chunk_ids` (the forward-pass identity assigner),
  * `parse_csv_to_list` and `csv_loader` (the tabular loader, including the
    `iterdir` failure on a missing directory and the `file_data[0]` /
    `file_data[-1]` indexing of each file's parsed rows),
  * `add_to_chroma` (the sync engine, with the external Chroma store
    abstracted to its id listing and batch write).
-/

namespace PopulateDatabase

/-! ## Decimal rendering (Python `str` of a non-negative integer) -/

/-- The character for one decimal digit, as produced by Python when it
renders an integer inside an f-string.  Digits are always below 10 here;
the catch-all arm is unreachable. -/
def digitChar (d : Nat) : Char :=
  match d with
  | 0 => '0' | 1 => '1' | 2 => '2' | 3 => '3' | 4 => '4'
  | 5 => '5' | 6 => '6' | 7 => '7' | 8 => '8' | 9 => '9'
  | _ => '*'

/-- Fuel-driven most-significant-first decimal digit list of `n`. -/
def toDigitsAux : Nat → Nat → List Char
  | 0, _ => []
  | fuel + 1, n =>
    if n < 10 then [digitChar n]
    else toDigitsAux fuel (n / 10) ++ [digitChar (n % 10)]

/-- Decimal rendering of a natural number, as Python `str`. -/
def natRepr (n : Nat) : String :=
  ⟨toDigitsAux (n + 1) n⟩

/-- Left-to-right decimal parser, used only to prove `natRepr` injective. -/
def parseAux (acc : Nat) : List Char → Nat
  | [] => acc
  | c :: cs => parseAux (acc * 10 + (c.toNat - 48)) cs

theorem digitChar_toNat {d : Nat} (h : d < 10) : (digitChar d).toNat = 48 + d := by
  interval_cases d <;> rfl

theorem digitChar_mem (d : Nat) :
    digitChar d ∈ (['0', '1', '2', '3', '4', '5', '6', '7', '8', '9', '*'] : List Char) := by
  rcases d with _ | _ | _ | _ | _ | _ | _ | _ | _ | _ | d <;> simp [digitChar]

theorem parseAux_append (acc : Nat) (l₁ l₂ : List Char) :
    parseAux acc (l₁ ++ l₂) = parseAux (parseAux acc l₁) l₂ := by
  induction l₁ generalizing acc with
  | nil => rfl
  | cons c cs ih => exact ih (acc * 10 + (c.toNat - 48))

theorem parseAux_toDigitsAux :
    ∀ fuel n, n < fuel → parseAux 0 (toDigitsAux fuel n) = n := by
  intro fuel
  induction fuel with
  | zero => omega
  | succ fuel ih =>
    intro n hn
    unfold toDigitsAux
    by_cases h : n < 10
    · rw [if_pos h]
      show 0 * 10 + ((digitChar n).toNat - 48) = n
      rw [digitChar_toNat h]
      omega
    · rw [if_neg h]
      rw [parseAux_append]
      have hdiv : n / 10 < fuel := by omega
      have hmod : n % 10 < 10 := Nat.mod_lt _ (by omega)
      rw [ih (n / 10) hdiv]
      show (n / 10) * 10 + ((digitChar (n % 10)).toNat - 48) = n
      rw [digitChar_toNat hmod]
      omega

theorem toDigitsAux_ne_nil (fuel n : Nat) (h : n < fuel) : toDigitsAux fuel n ≠ [] := by
  cases fuel with
  | zero => omega
  | succ fuel =>
    unfold toDigitsAux
    by_cases h10 : n < 10 <;> simp [h10]

theorem mem_toDigitsAux {fuel n : Nat} {c : Char} (h : c ∈ toDigitsAux fuel n) :
    ∃ d, c = digitChar d := by
  induction fuel generalizing n with
  | zero => simp [toDigitsAux] at h
  | succ fuel ih =>
    unfold toDigitsAux at h
    by_cases h10 : n < 10
    · simp [h10] at h
      exact ⟨n, h⟩
    · simp [h10] at h
      rcases h with h | h
      · exact ih h
      · exact ⟨n % 10, h⟩

theorem natRepr_inj {m n : Nat} (h : natRepr m = natRepr n) : m = n := by
  have hd : toDigitsAux (m + 1) m = toDigitsAux (n + 1) n := congrArg String.data h
  have hm := parseAux_toDigitsAux (m + 1) m (by omega)
  have hn := parseAux_toDigitsAux (n + 1) n (by omega)
  rw [hd, hn] at hm
  omega

theorem natRepr_no_colon {n : Nat} {c : Char} (h : c ∈ (natRepr n).data) : c ≠ ':' := by
  obtain ⟨d, rfl⟩ := mem_toDigitsAux h
  have := digitChar_mem d
  intro hc
  rw [hc] at this
  simp at this

theorem natRepr_ne_None (n : Nat) : natRepr n ≠ "None" := by
  intro h
  have hd : toDigitsAux (n + 1) n = ['N', 'o', 'n', 'e'] := congrArg String.data h
  have hN : ('N' : Char) ∈ toDigitsAux (n + 1) n := by rw [hd]; simp
  obtain ⟨d, hdc⟩ := mem_toDigitsAux hN
  have := digitChar_mem d
  rw [← hdc] at this
  simp at this

/-! ## Splitting a string at its last colon -/

theorem colon_split :
    ∀ (u v x y : List Char), (∀ c ∈ x, c ≠ ':') → (∀ c ∈ y, c ≠ ':') →
      u ++ ':' :: x = v ++ ':' :: y → u = v ∧ x = y := by
  intro u
  induction u with
  | nil =>
    intro v x y hx hy h
    cases v with
    | nil => simpa using h
    | cons b v' =>
      simp only [List.nil_append, List.cons_append, List.cons.injEq] at h
      obtain ⟨hb, hrest⟩ := h
      exfalso
      have : (':' : Char) ∈ x := by
        rw [hrest]
        simp
      exact hx ':' this rfl
  | cons a u' ih =>
    intro v x y hx hy h
    cases v with
    | nil =>
      simp only [List.nil_append, List.cons_append, List.cons.injEq] at h
      obtain ⟨hb, hrest⟩ := h
      exfalso
      have : (':' : Char) ∈ y := by
        rw [← hrest]
        simp
      exact hy ':' this rfl
    | cons b v' =>
      simp only [List.cons_append, List.cons.injEq] at h
      obtain ⟨hab, hrest⟩ := h
      obtain ⟨h1, h2⟩ := ih v' x y hx hy hrest
      exact ⟨by rw [hab, h1], h2⟩

theorem string_data_append (a b : String) : (a ++ b).data = a.data ++ b.data := by
  rcases a with ⟨da⟩
  rcases b with ⟨db⟩
  rfl

theorem string_mk_inj {l₁ l₂ : List Char} (h : (⟨l₁⟩ : String) = ⟨l₂⟩) : l₁ = l₂ := by
  injection h

theorem string_ext {a b : String} (h : a.data = b.data) : a = b := by
  rcases a with ⟨da⟩
  rcases b with ⟨db⟩
  simp only at h
  rw [h]

/-! ## Keys and ids

`calculate_chunk_ids` builds `current_page_id = f"{source}:{page}"` and
`chunk_id = f"{current_page_id}:{current_chunk_index}"`.  The metadata key
`"page"` is set only by the PDF loader (a zero-based page number); tabular
chunks do not carry it, so `metadata.get("page")` yields Python `None`,
rendered as the string `"None"` by the f-string. -/

/-- Rendering of the `page` metadata value by the f-string: an absent value
is Python `None` and prints as `"None"`. -/
def pageRender : Option Nat → String
  | none => "None"
  | some n => natRepr n

/-- The id string `f"{k}:{i}"` for a page key `k` and a chunk index `i`. -/
def mkId (k : String) (i : Nat) : String :=
  k ++ ":" ++ natRepr i

theorem pageRender_no_colon {p : Option Nat} {c : Char} (h : c ∈ (pageRender p).data) :
    c ≠ ':' := by
  cases p with
  | none =>
    intro hc
    rw [hc] at h
    simp [pageRender] at h
  | some n => exact natRepr_no_colon h

theorem pageRender_inj {p q : Option Nat} (h : pageRender p = pageRender q) : p = q := by
  cases p with
  | none =>
    cases q with
    | none => rfl
    | some n => exact absurd h.symm (natRepr_ne_None n)
  | some m =>
    cases q with
    | none => exact absurd h (natRepr_ne_None m)
    | some n => exact congrArg some (natRepr_inj h)

theorem mkId_inj {k₁ k₂ : String} {i₁ i₂ : Nat} (h : mkId k₁ i₁ = mkId k₂ i₂) :
    k₁ = k₂ ∧ i₁ = i₂ := by
  have hd : k₁.data ++ ':' :: (natRepr i₁).data = k₂.data ++ ':' :: (natRepr i₂).data := by
    have := congrArg String.data h
    rw [mkId, mkId, string_data_append, string_data_append,
      string_data_append, string_data_append] at this
    simpa using this
  obtain ⟨h1, h2⟩ := colon_split _ _ _ _
    (fun c hc => natRepr_no_colon hc) (fun c hc => natRepr_no_colon hc) hd
  exact ⟨string_ext h1, natRepr_inj (string_ext h2)⟩

/-! ## The Chunk data model

A langchain `Document`, restricted to the fields this program reads or
writes: `page_content` plus the metadata keys `source` (always set by both
loaders), `page` (set by the PDF loader, absent on tabular chunks), `row`
(set by the tabular loader, absent on PDF chunks) and `id` (set by
`calculate_chunk_ids`). -/

structure Chunk where
  content : String
  source : String
  page : Option Nat
  row : Option Nat
  id : Option String
  deriving DecidableEq

/-- The string `f"{source}:{page}"`: the `current_page_id` computed for a chunk. -/
def pageKey (c : Chunk) : String :=
  c.source ++ ":" ++ pageRender c.page

/-- The `(source, locator)` pair of a chunk, as the spec words it. -/
def pairKey (c : Chunk) : String × Option Nat :=
  (c.source, c.page)

/-- A chunk with its `id` metadata entry removed. -/
def eraseId (c : Chunk) : Chunk :=
  { c with id := none }

/-- The `id` metadata entry of a chunk; `calculate_chunk_ids` always sets it
before `add_to_chroma` reads it. -/
def idOf (c : Chunk) : String :=
  c.id.getD ""

theorem pageKey_inj {c₁ c₂ : Chunk} (h : pageKey c₁ = pageKey c₂) :
    c₁.source = c₂.source ∧ c₁.page = c₂.page := by
  have hd : c₁.source.data ++ ':' :: (pageRender c₁.page).data
      = c₂.source.data ++ ':' :: (pageRender c₂.page).data := by
    have := congrArg String.data h
    rw [pageKey, pageKey, string_data_append, string_data_append,
      string_data_append, string_data_append] at this
    simpa using this
  obtain ⟨h1, h2⟩ := colon_split _ _ _ _
    (fun c hc => pageRender_no_colon hc) (fun c hc => pageRender_no_colon hc) hd
  exact ⟨string_ext h1, pageRender_inj (string_ext h2)⟩

/-! ## `calculate_chunk_ids` -/

/-- The loop body of `calculate_chunk_ids`, carrying `last_page_id` and
`current_chunk_index` through the traversal.  Mirrors:

    for chunk in chunks:
        source = chunk.metadata.get("source")
        page = chunk.metadata.get("page")
        current_page_id = f"{source}:{page}"
        if current_page_id == last_page_id:
            current_chunk_index += 1
        else:
            current_chunk_index = 0
        chunk_id = f"{current_page_id}:{current_chunk_index}"
        last_page_id = current_page_id
        chunk.metadata["id"] = chunk_id
-/
def calcIds (last : Option String) (idx : Nat) : List Chunk → List Chunk
  | [] => []
  | c :: cs =>
    let currentPageId := pageKey c
    let newIdx := if some currentPageId = last then idx + 1 else 0
    { c with id := some (mkId currentPageId newIdx) } :: calcIds (some currentPageId) newIdx cs

/-- The function `calculate_chunk_ids(chunks)`: `last_page_id` starts as `None` and
`current_chunk_index` as `0`. -/
def calculate_chunk_ids (chunks : List Chunk) : List Chunk :=
  calcIds none 0 chunks

/-- The sequence of page-key strings of a chunk list. -/
def chunkKeys (chunks : List Chunk) : List String :=
  chunks.map pageKey

/-- The assigned ids, on the level of key strings only. -/
def idsFrom (last : Option String) (idx : Nat) : List String → List String
  | [] => []
  | k :: ks =>
    let newIdx := if some k = last then idx + 1 else 0
    mkId k newIdx :: idsFrom (some k) newIdx ks

/-- The assigned sequence indices, on the level of key strings only. -/
def idxsFrom (last : Option String) (idx : Nat) : List String → List Nat
  | [] => []
  | k :: ks =>
    let newIdx := if some k = last then idx + 1 else 0
    newIdx :: idxsFrom (some k) newIdx ks

/-- The sequence indices assigned by the forward pass of
`calculate_chunk_ids`, one per chunk key. -/
def seqIdxs (ks : List String) : List Nat :=
  idxsFrom none 0 ks

theorem calcIds_map_id (last : Option String) (idx : Nat) (cs : List Chunk) :
    (calcIds last idx cs).map Chunk.id = (idsFrom last idx (chunkKeys cs)).map some := by
  induction cs generalizing last idx with
  | nil => rfl
  | cons c cs ih =>
    simp only [calcIds, chunkKeys, List.map_cons, idsFrom]
    rw [← chunkKeys]
    rw [ih]

theorem idsFrom_eq_zipWith (last : Option String) (idx : Nat) (ks : List String) :
    idsFrom last idx ks = List.zipWith mkId ks (idxsFrom last idx ks) := by
  induction ks generalizing last idx with
  | nil => rfl
  | cons k ks ih =>
    simp only [idsFrom, idxsFrom, List.zipWith_cons_cons]
    rw [ih]

theorem idxsFrom_length (last : Option String) (idx : Nat) (ks : List String) :
    (idxsFrom last idx ks).length = ks.length := by
  induction ks generalizing last idx with
  | nil => rfl
  | cons k ks ih =>
    simp only [idxsFrom, List.length_cons]
    rw [ih]

/-! ## Contiguous grouping

`Contig l` states that equal elements of `l` occur in one contiguous block:
between any two equal elements, every element is equal to them.  This is the
precondition under which the forward pass of `calculate_chunk_ids` assigns
collision-free ids. -/

def Contig {α : Type} (l : List α) : Prop :=
  ∀ i j k : Fin l.length, i ≤ j → j ≤ k → l.get i = l.get k → l.get j = l.get i

instance {α : Type} [DecidableEq α] (l : List α) : Decidable (Contig l) := by
  unfold Contig
  infer_instance

theorem Contig.tail {α : Type} {a : α} {l : List α} (h : Contig (a :: l)) : Contig l := by
  intro i j k hij hjk hik
  have := h i.succ j.succ k.succ (by simpa using hij) (by simpa using hjk) (by simpa using hik)
  simpa using this

theorem Contig.map {α β : Type} {l : List α} (f : α → β)
    (hf : ∀ x y, f x = f y → x = y) (h : Contig l) : Contig (l.map f) := by
  intro i j k hij hjk hik
  have hlen : (l.map f).length = l.length := l.length_map f
  simp only [List.get_map] at hik ⊢
  have := h (i.cast hlen) (j.cast hlen) (k.cast hlen) (by simpa using hij)
    (by simpa using hjk) (hf _ _ hik)
  exact congrArg f this

theorem Contig.head_not_mem_of_ne {α : Type} {a b : α} {l : List α}
    (h : Contig (a :: b :: l)) (hab : a ≠ b) : a ∉ l := by
  intro hmem
  obtain ⟨p, hp⟩ := List.get_of_mem hmem
  have h0 : (0 : Nat) < (a :: b :: l).length := by simp
  have h1 : (1 : Nat) < (a :: b :: l).length := by simp
  have h2 : p.val + 2 < (a :: b :: l).length := by
    have := p.isLt
    simp only [List.length_cons]
    omega
  have := h ⟨0, h0⟩ ⟨1, h1⟩ ⟨p.val + 2, h2⟩ (by simp) (by simp [Fin.le_def])
    (by simpa using hp.symm)
  simp at this
  exact hab this.symm

/-! ## Uniqueness of the assigned ids under contiguous grouping -/

/-- The invariant carried through the forward pass: starting from the state
`(some last, n)`, provided equal keys in `last :: ks` are contiguous, the
emitted ids are duplicate-free, none of them reuses `last` with an index at
most `n`, and every one of them is built from a key occurring in `ks`. -/
theorem idsFrom_invariant :
    ∀ (ks : List String) (last : String) (n : Nat), Contig (last :: ks) →
      (idsFrom (some last) n ks).Nodup ∧
      (∀ s ∈ idsFrom (some last) n ks, ∀ m ≤ n, s ≠ mkId last m) ∧
      (∀ s ∈ idsFrom (some last) n ks, ∃ k ∈ ks, ∃ m, s = mkId k m) := by
  intro ks
  induction ks with
  | nil =>
    intro last n _
    refine ⟨List.nodup_nil, ?_, ?_⟩ <;> intro s hs <;> simp [idsFrom] at hs
  | cons c ks ih =>
    intro last n hc
    by_cases hcl : c = last
    · subst hcl
      have hrec := ih c (n + 1) hc.tail
      obtain ⟨hnd, hub, hkeys⟩ := hrec
      have hids : idsFrom (some c) n (c :: ks)
          = mkId c (n + 1) :: idsFrom (some c) (n + 1) ks := by
        simp [idsFrom]
      rw [hids]
      refine ⟨?_, ?_, ?_⟩
      · refine List.nodup_cons.2 ⟨?_, hnd⟩
        intro hmem
        exact hub _ hmem (n + 1) le_rfl rfl
      · intro s hs m hm
        rcases List.mem_cons.1 hs with hs | hs
        · subst hs
          intro heq
          obtain ⟨_, hidx⟩ := mkId_inj heq
          omega
        · exact hub s hs m (by omega)
      · intro s hs
        rcases List.mem_cons.1 hs with hs | hs
        · exact ⟨c, by simp, n + 1, hs⟩
        · obtain ⟨k, hk, m, hm⟩ := hkeys s hs
          exact ⟨k, by simp [hk], m, hm⟩
    · have hnotmem : last ∉ ks := hc.head_not_mem_of_ne (fun h => hcl h.symm)
      have hrec := ih c 0 hc.tail
      obtain ⟨hnd, hub, hkeys⟩ := hrec
      have hids : idsFrom (some last) n (c :: ks)
          = mkId c 0 :: idsFrom (some c) 0 ks := by
        simp [idsFrom, hcl]
      rw [hids]
      refine ⟨?_, ?_, ?_⟩
      · refine List.nodup_cons.2 ⟨?_, hnd⟩
        intro hmem
        exact hub _ hmem 0 le_rfl rfl
      · intro s hs m _
        rcases List.mem_cons.1 hs with hs | hs
        · subst hs
          intro heq
          obtain ⟨hk, _⟩ := mkId_inj heq
          exact hcl hk
        · obtain ⟨k, hk, m', hm'⟩ := hkeys s hs
          subst hm'
          intro heq
          obtain ⟨hk2, _⟩ := mkId_inj heq
          subst hk2
          exact hnotmem hk
      · intro s hs
        rcases List.mem_cons.1 hs with hs | hs
        · exact ⟨c, by simp, 0, hs⟩
        · obtain ⟨k, hk, m, hm⟩ := hkeys s hs
          exact ⟨k, by simp [hk], m, hm⟩

/-- Under contiguous grouping of the key strings, the forward pass emits
duplicate-free ids. -/
theorem idsFrom_nodup {ks : List String} (h : Contig ks) : (idsFrom none 0 ks).Nodup := by
  cases ks with
  | nil => exact List.nodup_nil
  | cons c ks =>
    have hrec := idsFrom_invariant ks c 0 h
    obtain ⟨hnd, hub, _⟩ := hrec
    have hids : idsFrom none 0 (c :: ks) = mkId c 0 :: idsFrom (some c) 0 ks := by
      simp [idsFrom]
    rw [hids]
    refine List.nodup_cons.2 ⟨?_, hnd⟩
    intro hmem
    exact hub _ hmem 0 le_rfl rfl

/-! ## The forward-pass recurrence on sequence indices -/

theorem idxsFrom_getD_succ :
    ∀ (ks : List String) (last : Option String) (n i : Nat), i + 1 < ks.length →
      (idxsFrom last n ks).getD (i + 1) 0 =
        if ks.getD (i + 1) "" = ks.getD i "" then (idxsFrom last n ks).getD i 0 + 1 else 0 := by
  intro ks
  induction ks with
  | nil => intro last n i h; simp at h
  | cons k ks ih =>
    intro last n i h
    cases i with
    | zero =>
      cases ks with
      | nil => simp at h
      | cons k' ks' =>
        simp only [idxsFrom, List.getD_cons_succ, List.getD_cons_zero]
        simp only [idxsFrom, List.getD_cons_zero, Option.some.injEq]
    | succ j =>
      simp only [idxsFrom, List.getD_cons_succ]
      exact ih (some k) _ j (by simpa using h)

theorem seqIdxs_recurrence (ks : List String) (i : Nat) (h : i + 1 < ks.length) :
    (seqIdxs ks).getD (i + 1) 0 =
      if ks.getD (i + 1) "" = ks.getD i "" then (seqIdxs ks).getD i 0 + 1 else 0 :=
  idxsFrom_getD_succ ks none 0 i h

theorem seqIdxs_head (k : String) (ks : List String) :
    (seqIdxs (k :: ks)).getD 0 0 = 0 := by
  simp [seqIdxs, idxsFrom]

/-! ## The tabular loader

`parse_csv_to_list` renders each row of a data frame as one `Document`:
the body is the `"{col}: {cell}"` lines of the cells that are present
(`pd.notna`), joined by newlines; the metadata is
`{'source': file_path, 'row': index}`.  A row is a list of
(column name, optional rendered cell value) pairs, in column order; a
missing cell (pandas `NaN`) is `none`. -/

/-- One data-frame row: the cells in column order, `none` for a missing
value. -/
def Row : Type := List (String × Option String)

instance : DecidableEq Row := by
  unfold Row
  infer_instance

/-- The body text of one row: the inner loop of `parse_csv_to_list`
(appending `f"{col}: {cell_content}"` for every non-missing cell) followed
by `"\n".join(row_content)`. -/
def formatRow (row : Row) : String :=
  String.intercalate "\n"
    (row.foldl
      (fun acc cell =>
        match cell.2 with
        | some v => acc ++ [cell.1 ++ ": " ++ v]
        | none => acc)
      [])

/-- The function `parse_csv_to_list(file_path)`: one chunk per row, in row order, with
metadata `source` and `row` (the zero-based data-frame index). -/
def parse_csv_to_list (file_path : String) (rows : List Row) : List Chunk :=
  rows.enum.map fun p =>
    { content := formatRow p.2, source := file_path, page := none, row := some p.1, id := none }

/-- A directory entry as seen by `CSV_PATH.iterdir()`: its path, whether it
is a regular file, its suffix, and (for a CSV file) its parsed rows. -/
structure DirEntry where
  path : String
  isFile : Bool
  suffix : String
  rows : List Row
  deriving DecidableEq

/-- The call `Path.iterdir()`: raises `FileNotFoundError` when the directory does
not exist, otherwise lists its entries. -/
def iterdir : Option (List DirEntry) → Except String (List DirEntry)
  | none => Except.error "FileNotFoundError"
  | some entries => Except.ok entries

/-- The filter `f.is_file() and f.suffix == '.csv'` of `csv_loader`. -/
def matchedCsv (f : DirEntry) : Bool :=
  f.isFile && (f.suffix == ".csv")

/-- The chunks contributed by one CSV file. -/
def csvFileChunks (f : DirEntry) : List Chunk :=
  parse_csv_to_list f.path f.rows

/-- The `for file_path in file_paths` loop of `csv_loader`: each file's
rows are parsed and appended to `data`; the trailing
`print(file_data[0], "\n\n", file_data[-1], ...)` raises `IndexError`
whenever a file produced zero rows, aborting the loop. -/
def loadFiles (data : List Chunk) : List DirEntry → Except String (List Chunk)
  | [] => Except.ok data
  | f :: fs =>
    let file_data := csvFileChunks f
    if file_data.isEmpty then Except.error "IndexError"
    else loadFiles (data ++ file_data) fs

/-- The function `csv_loader()`: list the tabular source directory, keep the `.csv`
files, and fold `parse_csv_to_list` over them. -/
def csv_loader (dir : Option (List DirEntry)) : Except String (List Chunk) :=
  match iterdir dir with
  | Except.error e => Except.error e
  | Except.ok entries => loadFiles [] (entries.filter matchedCsv)

/-! ## The paginated loader -/

/-- A PDF file: its path and the extracted text of its pages in order. -/
structure PdfDoc where
  path : String
  pages : List String
  deriving DecidableEq

/-- Modelled from the spec: `pdf_loader` delegates wholly to the external
`PyPDFDirectoryLoader` collaborator, whose code is not part of this
repository.  Per the loader contract of the spec (§4.1), a missing
directory or one with no matching files yields an empty sequence without
failing, and otherwise each page becomes one record carrying `source` and
the zero-based `page` number. -/
def pdf_loader : Option (List PdfDoc) → List Chunk
  | none => []
  | some docs =>
    docs.foldr
      (fun d acc =>
        (d.pages.enum.map fun p =>
          { content := p.2, source := d.path, page := some p.1, row := none, id := none }) ++ acc)
      []

/-! ## The sync engine `add_to_chroma`

The external Chroma store is abstracted to what the code reads and writes:
its id listing (`db.get(include=[])["ids"]`) and the batch write
(`db.add_documents(new_chunks, ids=new_chunk_ids)`).  The result captures
the chunks submitted to the write, the ids passed alongside them, and the
two reported counts. -/

structure SyncResult where
  written : List Chunk
  writtenIds : List String
  existingCount : Nat
  addedCount : Option Nat
  deriving DecidableEq

/-- The function `add_to_chroma(chunks)` against a store whose id listing is
`existingIds`: assign ids, keep the chunks whose id is not in the existing
set, and submit them in one batch.  `addedCount = none` models the
`"No new documents to add"` branch. -/
def add_to_chroma (existingIds : List String) (chunks : List Chunk) : SyncResult :=
  let chunks_with_ids := calculate_chunk_ids chunks
  let new_chunks := chunks_with_ids.filter fun c => !(existingIds.contains (idOf c))
  { written := new_chunks
    writtenIds := new_chunks.map idOf
    existingCount := existingIds.dedup.length
    addedCount := if new_chunks.isEmpty then none else some new_chunks.length }

/-- The id listing of the store after a run of `add_to_chroma`. -/
def storeAfter (existingIds : List String) (chunks : List Chunk) : List String :=
  existingIds ++ (add_to_chroma existingIds chunks).writtenIds

/-! ## Decomposition of the forward pass over constant-key runs -/

/-- Ids `mkId k n, mkId k (n+1), ...` assigned positionally to a run of
chunks that all share the page key `k`. -/
def markIds (k : String) (n : Nat) : List Chunk → List Chunk
  | [] => []
  | c :: cs => { c with id := some (mkId k n) } :: markIds k (n + 1) cs

theorem calcIds_const_run :
    ∀ (cs : List Chunk) (k : String) (n : Nat) (rest : List Chunk),
      (∀ c ∈ cs, pageKey c = k) →
      calcIds (some k) n (cs ++ rest)
        = markIds k (n + 1) cs ++ calcIds (some k) (n + cs.length) rest := by
  intro cs
  induction cs with
  | nil => intro k n rest _; simp [markIds]
  | cons c cs ih =>
    intro k n rest hall
    have hk : pageKey c = k := hall c (by simp)
    simp only [List.cons_append, calcIds, hk, eq_self_iff_true, if_true,
      List.append_eq, markIds]
    rw [ih k (n + 1) rest (fun x hx => hall x (by simp [hx]))]
    have harith : n + 1 + cs.length = n + (c :: cs).length := by
      simp only [List.length_cons]
      omega
    rw [harith]

theorem calcIds_run_entry :
    ∀ (c : Chunk) (cs : List Chunk) (k : String) (last : Option String) (n : Nat)
      (rest : List Chunk),
      pageKey c = k → (∀ x ∈ cs, pageKey x = k) → last ≠ some k →
      calcIds last n ((c :: cs) ++ rest)
        = markIds k 0 (c :: cs) ++ calcIds (some k) cs.length rest := by
  intro c cs k last n rest hc hall hlast
  have hne : ¬(some k = last) := fun h => hlast h.symm
  simp only [List.cons_append, calcIds, hc, if_neg hne, List.append_eq, markIds]
  rw [calcIds_const_run cs k 0 rest hall]
  simp

theorem markIds_map_id (k : String) (n : Nat) (cs : List Chunk) :
    (markIds k n cs).map Chunk.id
      = (List.range cs.length).map fun j => some (mkId k (n + j)) := by
  induction cs generalizing n with
  | nil => rfl
  | cons c cs ih =>
    simp only [markIds, List.map_cons, List.length_cons, List.range_succ_eq_map,
      List.map_map, List.cons.injEq]
    refine ⟨by rw [Nat.add_zero], ?_⟩
    rw [ih (n + 1)]
    congr 1
    funext j
    simp only [Function.comp_apply]
    have harith : n + 1 + j = n + Nat.succ j := by omega
    rw [harith]

/-! ## Per-file structure of the tabular chunks -/

/-- The page key shared by every chunk of one CSV file: the `page`
metadata entry is absent, so the f-string renders it as `"None"`. -/
def csvKey (f : DirEntry) : String :=
  f.path ++ ":" ++ "None"

/-- One CSV file's chunks with their ids assigned positionally. -/
def assignedFile (f : DirEntry) : List Chunk :=
  markIds (csvKey f) 0 (csvFileChunks f)

theorem parse_csv_to_list_length (p : String) (rows : List Row) :
    (parse_csv_to_list p rows).length = rows.length := by
  simp [parse_csv_to_list]

theorem parse_csv_to_list_pageKey {p : String} {rows : List Row} {c : Chunk}
    (h : c ∈ parse_csv_to_list p rows) : pageKey c = p ++ ":" ++ "None" := by
  simp only [parse_csv_to_list, List.mem_map] at h
  obtain ⟨q, _, rfl⟩ := h
  rfl

theorem csvFileChunks_pageKey {f : DirEntry} {c : Chunk} (h : c ∈ csvFileChunks f) :
    pageKey c = csvKey f :=
  parse_csv_to_list_pageKey h

theorem calcIds_flatMap :
    ∀ (fs : List DirEntry) (last : Option String) (n : Nat),
      (∀ f ∈ fs, f.rows ≠ []) →
      ((fs.map csvKey).Nodup) →
      (∀ k0, last = some k0 → k0 ∉ fs.map csvKey) →
      calcIds last n (fs.flatMap csvFileChunks) = fs.flatMap assignedFile := by
  intro fs
  induction fs with
  | nil => intro last n _ _ _; rfl
  | cons f fs ih =>
    intro last n hrows hnd hlast
    rw [List.map_cons, List.nodup_cons] at hnd
    have hne : csvFileChunks f ≠ [] := by
      intro h
      have := parse_csv_to_list_length f.path f.rows
      rw [show parse_csv_to_list f.path f.rows = csvFileChunks f from rfl, h] at this
      exact hrows f (by simp) (by simpa using this.symm)
    obtain ⟨c, cs, hcs⟩ := List.exists_cons_of_ne_nil hne
    have hkeys : ∀ x ∈ csvFileChunks f, pageKey x = csvKey f := fun x hx =>
      csvFileChunks_pageKey hx
    have hlastf : last ≠ some (csvKey f) := by
      intro h
      have := hlast (csvKey f) h
      simp at this
    simp only [List.flatMap_cons]
    rw [hcs]
    rw [calcIds_run_entry c cs (csvKey f) last n (fs.flatMap csvFileChunks)
      (hkeys c (by rw [hcs]; simp))
      (fun x hx => hkeys x (by rw [hcs]; simp [hx]))
      hlastf]
    rw [ih (some (csvKey f)) cs.length
      (fun g hg => hrows g (by simp [hg]))
      hnd.2
      ?_]
    · rw [show markIds (csvKey f) 0 (c :: cs) = assignedFile f by rw [assignedFile, hcs]]
    · intro k0 hk0 hmem
      have h1 : k0 = csvKey f := by injection hk0.symm
      rw [h1] at hmem
      exact hnd.1 hmem

/-! ## `csv_loader` on the happy path -/

theorem loadFiles_ok :
    ∀ (fs : List DirEntry) (acc : List Chunk),
      (∀ f ∈ fs, f.rows ≠ []) →
      loadFiles acc fs = Except.ok (acc ++ fs.flatMap csvFileChunks) := by
  intro fs
  induction fs with
  | nil => intro acc _; simp [loadFiles]
  | cons f fs ih =>
    intro acc hrows
    have hne0 : csvFileChunks f ≠ [] := by
      intro h
      apply hrows f (by simp)
      have := parse_csv_to_list_length f.path f.rows
      rw [show parse_csv_to_list f.path f.rows = csvFileChunks f from rfl, h] at this
      exact List.length_eq_zero.1 this.symm
    have hne : (csvFileChunks f).isEmpty = false := by
      rcases h : csvFileChunks f with _ | ⟨c, cs⟩
      · exact absurd h hne0
      · rfl
    rw [show loadFiles acc (f :: fs)
        = if (csvFileChunks f).isEmpty then Except.error "IndexError"
          else loadFiles (acc ++ csvFileChunks f) fs from rfl,
      hne]
    rw [if_neg (by simp)]
    rw [ih (acc ++ csvFileChunks f) (fun g hg => hrows g (by simp [hg]))]
    simp [List.flatMap_cons]

theorem csv_loader_ok (files : List DirEntry)
    (h : ∀ f ∈ files.filter matchedCsv, f.rows ≠ []) :
    csv_loader (some files)
      = Except.ok ((files.filter matchedCsv).flatMap csvFileChunks) := by
  simp only [csv_loader, iterdir]
  rw [loadFiles_ok _ [] h]
  simp

/-! ## Supporting lemmas for the claims -/

/-- The key string built by the f-string from a `(source, locator)` pair. -/
def keyOfPair (q : String × Option Nat) : String :=
  q.1 ++ ":" ++ pageRender q.2

theorem keyOfPair_inj :
    ∀ q₁ q₂ : String × Option Nat, keyOfPair q₁ = keyOfPair q₂ → q₁ = q₂ := by
  intro q₁ q₂ h
  have hd : q₁.1.data ++ ':' :: (pageRender q₁.2).data
      = q₂.1.data ++ ':' :: (pageRender q₂.2).data := by
    have := congrArg String.data h
    rw [keyOfPair, keyOfPair, string_data_append, string_data_append,
      string_data_append, string_data_append] at this
    simpa using this
  obtain ⟨h1, h2⟩ := colon_split _ _ _ _
    (fun c hc => pageRender_no_colon hc) (fun c hc => pageRender_no_colon hc) hd
  have := pageRender_inj (string_ext h2)
  rcases q₁ with ⟨s₁, p₁⟩
  rcases q₂ with ⟨s₂, p₂⟩
  simp only at this
  have hs : s₁ = s₂ := string_ext h1
  rw [hs, this]

theorem pageKey_eq_keyOfPair (c : Chunk) : pageKey c = keyOfPair (pairKey c) := rfl

theorem chunkKeys_eq_map_keyOfPair (chunks : List Chunk) :
    chunkKeys chunks = (chunks.map pairKey).map keyOfPair := by
  rw [chunkKeys, List.map_map]
  rfl

theorem calcIds_map_eraseId (last : Option String) (idx : Nat) (cs : List Chunk) :
    (calcIds last idx cs).map eraseId = cs.map eraseId := by
  induction cs generalizing last idx with
  | nil => rfl
  | cons c cs ih =>
    simp only [calcIds, List.map_cons]
    rw [ih]
    rfl

theorem calcIds_id_isSome (last : Option String) (idx : Nat) (cs : List Chunk) :
    ∀ c ∈ calcIds last idx cs, c.id.isSome = true := by
  induction cs generalizing last idx with
  | nil => intro c hc; simp [calcIds] at hc
  | cons c cs ih =>
    intro x hx
    simp only [calcIds, List.mem_cons] at hx
    rcases hx with hx | hx
    · subst hx
      rfl
    · exact ih _ _ x hx

theorem loadFiles_error :
    ∀ (fs : List DirEntry) (acc : List Chunk),
      (∃ f ∈ fs, f.rows = []) → loadFiles acc fs = Except.error "IndexError" := by
  intro fs
  induction fs with
  | nil =>
    intro acc h
    obtain ⟨f, hf, _⟩ := h
    simp at hf
  | cons f fs ih =>
    intro acc h
    by_cases hemp : (csvFileChunks f).isEmpty
    · rw [show loadFiles acc (f :: fs)
          = if (csvFileChunks f).isEmpty then Except.error "IndexError"
            else loadFiles (acc ++ csvFileChunks f) fs from rfl,
        if_pos hemp]
    · rw [show loadFiles acc (f :: fs)
          = if (csvFileChunks f).isEmpty then Except.error "IndexError"
            else loadFiles (acc ++ csvFileChunks f) fs from rfl,
        if_neg hemp]
      have hfrows : f.rows ≠ [] := by
        intro hr
        apply hemp
        rw [show csvFileChunks f = parse_csv_to_list f.path f.rows from rfl, hr]
        rfl
      obtain ⟨g, hg, hgrows⟩ := h
      rcases List.mem_cons.1 hg with hgf | hgtail
      · exact absurd (hgf ▸ hgrows) hfrows
      · exact ih _ ⟨g, hgtail, hgrows⟩

/-- The forward pass over the chunks of a single CSV file assigns the ids
positionally: the whole file is one constant-key run. -/
theorem calculate_parse_csv (p : String) (rows : List Row) :
    calculate_chunk_ids (parse_csv_to_list p rows)
      = markIds (p ++ ":" ++ "None") 0 (parse_csv_to_list p rows) := by
  cases rows with
  | nil => rfl
  | cons r rs =>
    have hne : parse_csv_to_list p (r :: rs) ≠ [] := by
      intro h
      have := parse_csv_to_list_length p (r :: rs)
      rw [h] at this
      simp at this
    obtain ⟨c, cs, hcs⟩ := List.exists_cons_of_ne_nil hne
    have h1 : calculate_chunk_ids (parse_csv_to_list p (r :: rs))
        = calcIds none 0 ((c :: cs) ++ []) := by
      rw [calculate_chunk_ids, hcs, List.append_nil]
    rw [h1, calcIds_run_entry c cs (p ++ ":" ++ "None") none 0 []
      (parse_csv_to_list_pageKey (by rw [hcs]; simp))
      (fun x hx => parse_csv_to_list_pageKey (by rw [hcs]; simp [hx]))
      (by simp),
      hcs]
    simp [calcIds]

theorem formatRow_step (row : Row) :
    ∀ acc : List String,
      row.foldl
        (fun acc cell =>
          match cell.2 with
          | some v => acc ++ [cell.1 ++ ": " ++ v]
          | none => acc)
        acc
      = acc ++ row.filterMap fun cell => cell.2.map fun v => cell.1 ++ ": " ++ v := by
  induction row with
  | nil => intro acc; simp
  | cons cell row ih =>
    intro acc
    rcases cell with ⟨col, val⟩
    cases val with
    | none => simp only [List.foldl_cons, List.filterMap_cons]; rw [ih]; rfl
    | some v =>
      simp only [List.foldl_cons, List.filterMap_cons]
      rw [ih]
      simp

/-! ## Concrete inputs used by the claims -/

/-- A chunk as produced by the PDF loader: `source` and a page number. -/
def pdfChunk (s : String) (p : Nat) : Chunk :=
  { content := "t", source := s, page := some p, row := none, id := none }

/-- The six-chunk key sequence of the spec: three chunks of page 1 of
`a.pdf`, two of page 2, then one more of page 1 (non-contiguous). -/
def c1Chunks : List Chunk :=
  [pdfChunk "a.pdf" 1, pdfChunk "a.pdf" 1, pdfChunk "a.pdf" 1,
   pdfChunk "a.pdf" 2, pdfChunk "a.pdf" 2, pdfChunk "a.pdf" 1]

/-- A contiguously grouped chunk sequence. -/
def c2Chunks : List Chunk :=
  [pdfChunk "a.pdf" 1, pdfChunk "a.pdf" 1, pdfChunk "b.pdf" 3]

/-- Two contiguous chunks of page 1 of source `x`, whose assigned ids are
`x:1:0` and `x:1:1`. -/
def c3Chunks : List Chunk :=
  [{ content := "u", source := "x", page := some 1, row := none, id := none },
   { content := "v", source := "x", page := some 1, row := none, id := none }]

/-- One CSV row with a single present cell. -/
def c5Rows : List Row :=
  [[("name", some "Bob")]]

/-- A tabular source directory holding one non-CSV file. -/
def c6Entries : List DirEntry :=
  [{ path := "data/csv/readme.txt", isFile := true, suffix := ".txt", rows := [] }]

/-- Two one-row CSV files, used to exercise directory-order independence. -/
def c8FileA : DirEntry :=
  { path := "data/csv/a.csv", isFile := true, suffix := ".csv",
    rows := [[("h", some "1")]] }

/-- Second CSV file for the order-independence witness. -/
def c8FileB : DirEntry :=
  { path := "data/csv/b.csv", isFile := true, suffix := ".csv",
    rows := [[("h", some "2")]] }

/-- A tabular source directory holding one CSV file with zero data rows. -/
def c10Entries : List DirEntry :=
  [{ path := "data/csv/empty.csv", isFile := true, suffix := ".csv", rows := [] }]

/-! ## The claims -/

/-- C1: `calculate_chunk_ids` assigns sequence indices by a single forward
pass comparing each chunk key to the immediately preceding one —
incrementing the counter on equality, resetting it to 0 otherwise — and on
the key sequence (a.pdf,1) ×3, (a.pdf,2) ×2, (a.pdf,1) it produces the
sequence indices [0,1,2,0,1,0], the last chunk reusing id a.pdf:1:0.  The
string keys compared by the code coincide with the (source, locator) pairs
named by the spec. -/
theorem calculate_chunk_ids_forward_pass :
    (∀ chunks : List Chunk,
      (calculate_chunk_ids chunks).map Chunk.id
        = (List.zipWith mkId (chunkKeys chunks) (seqIdxs (chunkKeys chunks))).map some)
    ∧ (∀ c d : Chunk, pageKey c = pageKey d ↔ pairKey c = pairKey d)
    ∧ (∀ (ks : List String) (i : Nat), i + 1 < ks.length →
        (seqIdxs ks).getD (i + 1) 0
          = if ks.getD (i + 1) "" = ks.getD i "" then (seqIdxs ks).getD i 0 + 1 else 0)
    ∧ (∀ (k : String) (ks : List String), (seqIdxs (k :: ks)).getD 0 0 = 0)
    ∧ seqIdxs (chunkKeys c1Chunks) = [0, 1, 2, 0, 1, 0]
    ∧ (calculate_chunk_ids c1Chunks).map Chunk.id
        = [some "a.pdf:1:0", some "a.pdf:1:1", some "a.pdf:1:2",
           some "a.pdf:2:0", some "a.pdf:2:1", some "a.pdf:1:0"] := by
  refine ⟨?_, ?_, seqIdxs_recurrence, seqIdxs_head, by decide, by decide⟩
  · intro chunks
    rw [calculate_chunk_ids, calcIds_map_id, idsFrom_eq_zipWith]
    rfl
  · intro c d
    constructor
    · intro h
      have := keyOfPair_inj (pairKey c) (pairKey d) h
      exact this
    · intro h
      rw [pageKey_eq_keyOfPair, pageKey_eq_keyOfPair, h]

/-- C1 witness: the recurrence instantiated at position 1 of the six-key
example. -/
theorem calculate_chunk_ids_forward_pass_witness :
    (1 + 1 < (chunkKeys c1Chunks).length)
    ∧ (seqIdxs (chunkKeys c1Chunks)).getD 2 0
        = if (chunkKeys c1Chunks).getD 2 "" = (chunkKeys c1Chunks).getD 1 ""
          then (seqIdxs (chunkKeys c1Chunks)).getD 1 0 + 1 else 0 :=
  ⟨by decide, calculate_chunk_ids_forward_pass.2.2.1 (chunkKeys c1Chunks) 1 (by decide)⟩

/-- C2: whenever chunks sharing the same (source, locator) key are
contiguous in the input sequence, the ids assigned by
`calculate_chunk_ids` are pairwise distinct. -/
theorem calculate_chunk_ids_nodup (chunks : List Chunk)
    (h : Contig (chunks.map pairKey)) :
    ((calculate_chunk_ids chunks).map Chunk.id).Nodup := by
  have hkeys : Contig (chunkKeys chunks) := by
    rw [chunkKeys_eq_map_keyOfPair]
    exact h.map keyOfPair keyOfPair_inj
  rw [calculate_chunk_ids, calcIds_map_id]
  exact (idsFrom_nodup hkeys).map (Option.some_injective String)

/-- C2 witness: a concrete contiguously grouped sequence with
duplicate-free ids. -/
theorem calculate_chunk_ids_nodup_witness :
    Contig (c2Chunks.map pairKey)
    ∧ ((calculate_chunk_ids c2Chunks).map Chunk.id).Nodup :=
  ⟨by decide, calculate_chunk_ids_nodup c2Chunks (by decide)⟩

/-- C5 counterexample: a chunk produced by the tabular loader from row 0 of
data/csv/test.csv receives the id data/csv/test.csv:None:0 — the locator
component is the string None, not the row index 0 claimed by the spec,
because `calculate_chunk_ids` reads the absent `page` metadata key rather
than `row`. -/
theorem csv_locator_counterexample :
    (calculate_chunk_ids (parse_csv_to_list "data/csv/test.csv" c5Rows)).map Chunk.id
      = [some "data/csv/test.csv:None:0"]
    ∧ ("data/csv/test.csv:None:0" : String) ≠ "data/csv/test.csv:0:0" := by
  constructor
  · decide
  · decide

/-- C5 amended: for every chunk derived from a tabular source, the locator
component of the assigned id is the string None (the rendering of the
absent `page` metadata), and the sequence index enumerates the rows of the
file in order, so the ids of one parsed CSV file are
source:None:0, source:None:1, ... -/
theorem csv_chunk_ids_locator_none (p : String) (rows : List Row) :
    (calculate_chunk_ids (parse_csv_to_list p rows)).map Chunk.id
      = (List.range rows.length).map fun i => some (mkId (p ++ ":" ++ "None") i) := by
  rw [calculate_parse_csv, markIds_map_id, parse_csv_to_list_length]
  simp

/-- C7: the body of a tabular row is the newline-join of one
`col: value` line per present cell, cells with missing values being
omitted entirely; the row (name: Bob, age: missing, city: NYC) yields
exactly the two-line body. -/
theorem formatRow_omits_missing :
    (∀ row : Row,
      formatRow row
        = String.intercalate "\n"
            (row.filterMap fun cell => cell.2.map fun v => cell.1 ++ ": " ++ v))
    ∧ (∀ (p : String) (rows : List Row),
        (parse_csv_to_list p rows).map Chunk.content = rows.map formatRow)
    ∧ formatRow [("name", some "Bob"), ("age", none), ("city", some "NYC")]
        = "name: Bob\ncity: NYC" := by
  refine ⟨?_, ?_, by decide⟩
  · intro row
    rw [formatRow, formatRow_step]
    rfl
  · intro p rows
    rw [parse_csv_to_list, List.map_map]
    have : (Chunk.content ∘ fun q : Nat × Row =>
        ({ content := formatRow q.2, source := p, page := none, row := some q.1,
           id := none } : Chunk)) = formatRow ∘ Prod.snd := rfl
    rw [this, ← List.map_map, List.enum_map_snd]

/-- C9: `calculate_chunk_ids` returns the chunks in their original order,
leaving the content and every metadata field other than `id` unchanged,
and sets the `id` entry on every chunk. -/
theorem calculate_chunk_ids_frame :
    ∀ chunks : List Chunk,
      (calculate_chunk_ids chunks).map eraseId = chunks.map eraseId
      ∧ (calculate_chunk_ids chunks).length = chunks.length
      ∧ ∀ c ∈ calculate_chunk_ids chunks, c.id.isSome = true := by
  intro chunks
  refine ⟨calcIds_map_eraseId none 0 chunks, ?_, calcIds_id_isSome none 0 chunks⟩
  have h := congrArg List.length (calcIds_map_eraseId none 0 chunks)
  simpa using h

/-- C3: the sync engine writes exactly the chunks whose id is not in the
existing id set and reports their number; with existing ids x:1:0 and
incoming ids x:1:0, x:1:1, exactly the chunk x:1:1 is written and the
added count is 1. -/
theorem add_to_chroma_partition :
    (∀ (existing : List String) (chunks : List Chunk) (c : Chunk),
      c ∈ (add_to_chroma existing chunks).written
        ↔ c ∈ calculate_chunk_ids chunks ∧ idOf c ∉ existing)
    ∧ (∀ (existing : List String) (chunks : List Chunk),
        (add_to_chroma existing chunks).writtenIds
          = (add_to_chroma existing chunks).written.map idOf)
    ∧ (∀ (existing : List String) (chunks : List Chunk),
        (add_to_chroma existing chunks).written ≠ [] →
        (add_to_chroma existing chunks).addedCount
          = some (add_to_chroma existing chunks).written.length)
    ∧ (add_to_chroma ["x:1:0"] c3Chunks).writtenIds = ["x:1:1"]
    ∧ (add_to_chroma ["x:1:0"] c3Chunks).written
        = [{ content := "v", source := "x", page := some 1, row := none,
             id := some "x:1:1" }]
    ∧ (add_to_chroma ["x:1:0"] c3Chunks).addedCount = some 1 := by
  refine ⟨?_, fun _ _ => rfl, ?_, by decide, by decide, by decide⟩
  · intro existing chunks c
    show c ∈ (calculate_chunk_ids chunks).filter
        (fun c => !(existing.contains (idOf c))) ↔ _
    rw [List.mem_filter]
    constructor
    · rintro ⟨h1, h2⟩
      refine ⟨h1, fun hmem => ?_⟩
      rw [Bool.not_eq_true'] at h2
      have h3 : existing.contains (idOf c) = true := List.elem_iff.2 hmem
      rw [h3] at h2
      cases h2
    · rintro ⟨h1, h2⟩
      refine ⟨h1, ?_⟩
      rw [Bool.not_eq_true']
      by_contra hb
      have : existing.contains (idOf c) = true := by
        cases h : existing.contains (idOf c)
        · exact absurd h hb
        · rfl
      exact h2 (List.elem_iff.1 this)
  · intro existing chunks hne
    show (if ((calculate_chunk_ids chunks).filter
        (fun c => !(existing.contains (idOf c)))).isEmpty then none
      else some ((calculate_chunk_ids chunks).filter
        (fun c => !(existing.contains (idOf c)))).length) = _
    have hemp : ((calculate_chunk_ids chunks).filter
        (fun c => !(existing.contains (idOf c)))).isEmpty = false := by
      rcases h : (calculate_chunk_ids chunks).filter
          (fun c => !(existing.contains (idOf c))) with _ | ⟨x, xs⟩
      · exact absurd h hne
      · rfl
    rw [hemp]
    rfl

/-- C3 witness: the conditional count report instantiated at the concrete
partition example. -/
theorem add_to_chroma_partition_witness :
    (add_to_chroma ["x:1:0"] c3Chunks).written ≠ []
    ∧ (add_to_chroma ["x:1:0"] c3Chunks).addedCount
        = some (add_to_chroma ["x:1:0"] c3Chunks).written.length :=
  ⟨by decide, add_to_chroma_partition.2.2.1 ["x:1:0"] c3Chunks (by decide)⟩

/-- C4: a second run over the same chunks against the store left by the
first run writes nothing: every id of the second run is already present,
the new-chunk partition is empty, the report says no documents were added,
and the id listing of the store is unchanged. -/
theorem add_to_chroma_idempotent :
    ∀ (existing : List String) (chunks : List Chunk),
      (∀ c ∈ calculate_chunk_ids chunks, idOf c ∈ storeAfter existing chunks)
      ∧ (add_to_chroma (storeAfter existing chunks) chunks).written = []
      ∧ (add_to_chroma (storeAfter existing chunks) chunks).writtenIds = []
      ∧ (add_to_chroma (storeAfter existing chunks) chunks).addedCount = none
      ∧ storeAfter (storeAfter existing chunks) chunks = storeAfter existing chunks := by
  intro existing chunks
  have hmem : ∀ c ∈ calculate_chunk_ids chunks, idOf c ∈ storeAfter existing chunks := by
    intro c hc
    by_cases he : idOf c ∈ existing
    · exact List.mem_append.2 (Or.inl he)
    · refine List.mem_append.2 (Or.inr ?_)
      show idOf c ∈ ((calculate_chunk_ids chunks).filter
        (fun x => !(existing.contains (idOf x)))).map idOf
      refine List.mem_map.2 ⟨c, ?_, rfl⟩
      rw [List.mem_filter]
      refine ⟨hc, ?_⟩
      rw [Bool.not_eq_true']
      cases h : existing.contains (idOf c)
      · rfl
      · exact absurd (List.elem_iff.1 h) he
  have hfil : (calculate_chunk_ids chunks).filter
      (fun c => !((storeAfter existing chunks).contains (idOf c))) = [] := by
    rw [List.filter_eq_nil_iff]
    intro c hc
    have h3 : (storeAfter existing chunks).contains (idOf c) = true :=
      List.elem_iff.2 (hmem c hc)
    rw [h3]
    simp
  refine ⟨hmem, hfil, ?_, ?_, ?_⟩
  · show ((calculate_chunk_ids chunks).filter
        (fun c => !((storeAfter existing chunks).contains (idOf c)))).map idOf = []
    rw [hfil]
    rfl
  · show (if ((calculate_chunk_ids chunks).filter
        (fun c => !((storeAfter existing chunks).contains (idOf c)))).isEmpty
      then none else some ((calculate_chunk_ids chunks).filter
        (fun c => !((storeAfter existing chunks).contains (idOf c)))).length)
      = (none : Option Nat)
    rw [hfil]
    rfl
  · show storeAfter existing chunks
        ++ ((calculate_chunk_ids chunks).filter
          (fun c => !((storeAfter existing chunks).contains (idOf c)))).map idOf
      = storeAfter existing chunks
    rw [hfil]
    simp

/-- C6 counterexample: when the tabular source directory does not exist,
`csv_loader` does not return an empty sequence — `Path.iterdir` raises
`FileNotFoundError` and the run fails. -/
theorem csv_loader_missing_dir :
    csv_loader none = Except.error "FileNotFoundError"
    ∧ csv_loader none ≠ Except.ok ([] : List Chunk) := by
  refine ⟨rfl, ?_⟩
  intro h
  rw [show csv_loader none = Except.error "FileNotFoundError" from rfl] at h
  exact Except.noConfusion h

/-- C6 amended: the paginated loader yields an empty sequence for a
missing or empty directory (external collaborator, modelled from the
spec), and the tabular loader yields an empty sequence when its directory
exists but contains no matching files; but a missing tabular directory
raises instead of yielding an empty sequence. -/
theorem loaders_empty_on_no_matches :
    (∀ entries : List DirEntry, entries.filter matchedCsv = [] →
        csv_loader (some entries) = Except.ok ([] : List Chunk))
    ∧ pdf_loader none = []
    ∧ pdf_loader (some []) = [] := by
  refine ⟨?_, rfl, rfl⟩
  intro entries h
  show loadFiles [] (entries.filter matchedCsv) = Except.ok ([] : List Chunk)
  rw [h]
  rfl

/-- C6 witness: a directory with one non-CSV entry loads as the empty
sequence. -/
theorem loaders_empty_on_no_matches_witness :
    c6Entries.filter matchedCsv = []
    ∧ csv_loader (some c6Entries) = Except.ok ([] : List Chunk) :=
  ⟨by decide, loaders_empty_on_no_matches.1 c6Entries (by decide)⟩

/-- C8: for a fixed set of source files, the loader-to-id path is a
deterministic function of the directory contents: two runs that enumerate
the same CSV files in two different orders both succeed, and the fully
id-assigned chunk lists they produce are permutations of each other —
identical chunk id sets and identical contents. -/
theorem csv_pipeline_order_independent
    (files₁ files₂ : List DirEntry)
    (hperm : files₁.Perm files₂)
    (hnd : ((files₁.filter matchedCsv).map csvKey).Nodup)
    (hrows : ∀ f ∈ files₁.filter matchedCsv, f.rows ≠ []) :
    csv_loader (some files₁)
      = Except.ok ((files₁.filter matchedCsv).flatMap csvFileChunks)
    ∧ csv_loader (some files₂)
      = Except.ok ((files₂.filter matchedCsv).flatMap csvFileChunks)
    ∧ (calculate_chunk_ids ((files₁.filter matchedCsv).flatMap csvFileChunks)).Perm
        (calculate_chunk_ids ((files₂.filter matchedCsv).flatMap csvFileChunks)) := by
  have hpf : (files₁.filter matchedCsv).Perm (files₂.filter matchedCsv) :=
    hperm.filter matchedCsv
  have hrows₂ : ∀ f ∈ files₂.filter matchedCsv, f.rows ≠ [] := fun f hf =>
    hrows f (hpf.symm.subset hf)
  have hnd₂ : ((files₂.filter matchedCsv).map csvKey).Nodup :=
    ((hpf.map csvKey).nodup_iff).1 hnd
  refine ⟨csv_loader_ok _ hrows, csv_loader_ok _ hrows₂, ?_⟩
  rw [show calculate_chunk_ids ((files₁.filter matchedCsv).flatMap csvFileChunks)
      = (files₁.filter matchedCsv).flatMap assignedFile from
    calcIds_flatMap _ none 0 hrows hnd (fun k0 hk0 => Option.noConfusion hk0)]
  rw [show calculate_chunk_ids ((files₂.filter matchedCsv).flatMap csvFileChunks)
      = (files₂.filter matchedCsv).flatMap assignedFile from
    calcIds_flatMap _ none 0 hrows₂ hnd₂ (fun k0 hk0 => Option.noConfusion hk0)]
  exact hpf.flatMap_right assignedFile

/-- C8 witness: two CSV files enumerated in both orders produce
permutation-equal id-assigned chunk lists. -/
theorem csv_pipeline_order_independent_witness :
    ([c8FileA, c8FileB].Perm [c8FileB, c8FileA]
      ∧ (([c8FileA, c8FileB].filter matchedCsv).map csvKey).Nodup
      ∧ ∀ f ∈ [c8FileA, c8FileB].filter matchedCsv, f.rows ≠ [])
    ∧ (calculate_chunk_ids (([c8FileA, c8FileB].filter matchedCsv).flatMap csvFileChunks)).Perm
        (calculate_chunk_ids (([c8FileB, c8FileA].filter matchedCsv).flatMap csvFileChunks)) :=
  ⟨⟨by decide, by decide, by decide⟩,
    (csv_pipeline_order_independent [c8FileA, c8FileB] [c8FileB, c8FileA]
      (by decide) (by decide) (by decide)).2.2⟩

/-- C10: a CSV file with zero data rows makes `csv_loader` raise
`IndexError` (the debug print indexes the first and last element of the
empty parsed row list) instead of contributing an empty sequence, aborting
the run. -/
theorem csv_loader_empty_file_aborts (entries : List DirEntry)
    (h : ∃ f ∈ entries, matchedCsv f = true ∧ f.rows = []) :
    csv_loader (some entries) = Except.error "IndexError" := by
  show loadFiles [] (entries.filter matchedCsv) = Except.error "IndexError"
  obtain ⟨f, hf, hm, hr⟩ := h
  exact loadFiles_error _ [] ⟨f, List.mem_filter.2 ⟨hf, hm⟩, hr⟩

/-- The first chunk of the concrete partition example after id
assignment, used to instantiate the membership hypotheses of the frame and
idempotence claims. -/
def c3AssignedHead : Chunk :=
  { content := "u", source := "x", page := some 1, row := none, id := some "x:1:0" }

/-- C4 witness: the idempotence statement instantiated at an initially
empty store and the concrete two-chunk batch. -/
theorem add_to_chroma_idempotent_witness :
    (c3AssignedHead ∈ calculate_chunk_ids c3Chunks
      ∧ idOf c3AssignedHead ∈ storeAfter [] c3Chunks)
    ∧ (add_to_chroma (storeAfter [] c3Chunks) c3Chunks).written = [] :=
  ⟨⟨by decide, (add_to_chroma_idempotent [] c3Chunks).1 c3AssignedHead (by decide)⟩,
    (add_to_chroma_idempotent [] c3Chunks).2.1⟩

/-- C9 witness: the frame statement instantiated at the concrete two-chunk
batch and its first output chunk. -/
theorem calculate_chunk_ids_frame_witness :
    c3AssignedHead ∈ calculate_chunk_ids c3Chunks
    ∧ c3AssignedHead.id.isSome = true :=
  ⟨by decide, (calculate_chunk_ids_frame c3Chunks).2.2 c3AssignedHead (by decide)⟩

/-- C10 witness: a directory with one empty CSV file aborts the run. -/
theorem csv_loader_empty_file_aborts_witness :
    (∃ f ∈ c10Entries, matchedCsv f = true ∧ f.rows = [])
    ∧ csv_loader (some c10Entries) = Except.error "IndexError" :=
  ⟨by decide, csv_loader_empty_file_aborts c10Entries (by decide)⟩

end PopulateDatabase
